import Mathlib

/-!
Shallow embedding of the Repello frontend streaming client
(`src/frontend/src/app/services/api.ts`) and of the chat interface
submit/message handlers (`ChatInterface.tsx`).

Stream text is modelled as `List Char` (the output of the stateful
`TextDecoder`, for which decoding a concatenation of byte chunks equals
the concatenation of the decoded chunks).  `JSON.parse` is an external
platform collaborator and is modelled as an abstract oracle
`Parse : List Char → Option JsonValue`: `none` covers both a parse
exception and a primitive result (for which the subsequent
`sessionId in message` membership test throws, which the same
`try`/`catch` swallows); `some v` is a parsed object, where
`v.sessionId?` records the value of its `sessionId` key when the key is
present and `v.asMessage` is the object cast to `Message`.
-/

namespace Repello

/-- `Message` from api.ts: the typed stream message yielded to consumers. -/
structure Message where
  type : String
  content : String
deriving DecidableEq, Repr

/-- A JSON object as returned by the `JSON.parse` oracle. -/
structure JsonValue where
  sessionId? : Option String
  asMessage : Message
deriving DecidableEq, Repr

/-- The `JSON.parse` oracle (see the module docstring). -/
abbrev Parse := List Char → Option JsonValue

/-- `QueryRequest` from api.ts.  `max_results : Option (Option Int)`
distinguishes the field being absent (`none`, dropped by
`JSON.stringify`), present with value `null` (`some none`), and present
with a number (`some (some n)`). -/
structure QueryRequest where
  query : String
  sessionId : Option String
  max_results : Option (Option Int)
deriving DecidableEq, Repr

/-- JavaScript `String.prototype.trim`, modelled on the character list:
strip leading and trailing whitespace. -/
def jsTrim (s : String) : String :=
  ⟨((s.data.dropWhile Char.isWhitespace).reverse.dropWhile
      Char.isWhitespace).reverse⟩

/-- `buffer.split('\n')` from api.ts, on `List Char`.  Like the
JavaScript `split`, it never returns an empty list: splitting the empty
string gives `[[]]`. -/
def splitNl : List Char → List (List Char)
  | [] => [[]]
  | c :: cs =>
    if c = '\n' then [] :: splitNl cs
    else
      match splitNl cs with
      | [] => [[c]]
      | l :: ls => (c :: l) :: ls

/-- Prepend `x` to the head piece of a split (helper for reasoning about
`splitNl` on concatenations). -/
def glueHead (x : List Char) : List (List Char) → List (List Char)
  | [] => [x]
  | l :: ls => (x ++ l) :: ls

/-- The body of the inner `for (const line of lines)` loop of
`streamQuery` for one complete line: the guard `if (line.trim())`, the
`JSON.parse` attempt, the `sessionId` capture (which stores the id and
yields nothing), the `yield message`, and the silent `catch`.  Returns
the messages yielded for this line and the updated `currentSessionId`. -/
def handleLine (parse : Parse) (sid : Option String) (line : List Char) :
    List Message × Option String :=
  if line.any (fun c => !c.isWhitespace) then
    match parse line with
    | some v =>
      match v.sessionId? with
      | some s => ([], some s)
      | none => ([v.asMessage], sid)
    | none => ([], sid)
  else ([], sid)

/-- The inner `for` loop of `streamQuery` over the complete lines of one
chunk, threading `currentSessionId`. -/
def handleLines (parse : Parse) (sid : Option String) :
    List (List Char) → List Message × Option String
  | [] => ([], sid)
  | l :: ls =>
    let r := handleLine parse sid l
    let r' := handleLines parse r.2 ls
    (r.1 ++ r'.1, r'.2)

/-- One non-`done` iteration of the `while (true)` loop of
`streamQuery`: `buffer += chunk`, `lines = buffer.split('\n')`,
`buffer = lines.pop() || ''`, then the inner loop over the complete
lines.  Returns (yielded messages, new buffer, new session id). -/
def feedChunk (parse : Parse) (sid : Option String) (buf chunk : List Char) :
    List Message × List Char × Option String :=
  ((handleLines parse sid (splitNl (buf ++ chunk)).dropLast).1,
   (splitNl (buf ++ chunk)).getLastD [],
   (handleLines parse sid (splitNl (buf ++ chunk)).dropLast).2)

/-- One result of `reader.read()`: either a decoded chunk or a thrown
error (`some m` an `Error` with message `m`, `none` a non-`Error`
throw). -/
inductive ReadEvent where
  | chunk (s : List Char)
  | readError (e : Option String)
deriving DecidableEq, Repr

/-- Outcome of the read loop up to `done`: either the reader reported
`done` (with the yields so far, the leftover buffer and the session id),
or a `read()` call threw. -/
inductive ReadLoop where
  | finished (yields : List Message) (buffer : List Char) (sid : Option String)
  | errored (yields : List Message) (e : Option String) (sid : Option String)
deriving DecidableEq, Repr

/-- The `while (true)` loop of `streamQuery` over the successive results
of `reader.read()`, up to (but not including) the `done` branch. -/
def runReads (parse : Parse) :
    List ReadEvent → List Char → Option String → ReadLoop
  | [], buf, sid => .finished [] buf sid
  | .chunk c :: rest, buf, sid =>
    let r := feedChunk parse sid buf c
    match runReads parse rest r.2.1 r.2.2 with
    | .finished ms' b s => .finished (r.1 ++ ms') b s
    | .errored ms' e s => .errored (r.1 ++ ms') e s
  | .readError e :: _, _, sid => .errored [] e sid

/-- Overall outcome of one `streamQuery` run: either the generator
returns (`terminated`), or it never returns (`diverged`) — in both
cases with the messages yielded to the consumer and the final value of
the module-level `currentSessionId`. -/
inductive StreamOutcome where
  | terminated (yields : List Message) (sid : Option String)
  | diverged (yields : List Message) (sid : Option String)
deriving DecidableEq, Repr

/-- The messages the consumer receives. -/
def StreamOutcome.yields : StreamOutcome → List Message
  | .terminated ys _ => ys
  | .diverged ys _ => ys

/-- The final value of the module-level `currentSessionId`. -/
def StreamOutcome.sid : StreamOutcome → Option String
  | .terminated _ s => s
  | .diverged _ s => s

/-- Whether the generator completes normally. -/
def StreamOutcome.isTerminated : StreamOutcome → Bool
  | .terminated _ _ => true
  | .diverged _ _ => false

/-- The `if (done)` branch of `streamQuery`.  When the leftover buffer
is non-empty and parses to an object with a `sessionId` key, the code
stores the id and executes `continue`, which re-enters the
`while (true)` loop: `reader.read()` resolves `done` again and the
buffer is unchanged, so the loop repeats forever (`diverged`); this is
proved against the fuelled loop `loopFuel` below.  In every other case
the branch reaches `break`. -/
def doneBranch (parse : Parse) (buf : List Char) (sid : Option String) :
    StreamOutcome :=
  if buf.isEmpty then .terminated [] sid
  else
    match parse buf with
    | some v =>
      match v.sessionId? with
      | some s => .diverged [] (some s)
      | none => .terminated [v.asMessage] sid
    | none => .terminated [] sid

/-- The `Error.message`-or-fallback content of the outer `catch` block:
`error instanceof Error ? error.message : 'An unknown error occurred'`. -/
def errMessage (e : Option String) : Message :=
  ⟨"error", e.getD "An unknown error occurred"⟩

/-- The message yielded on HTTP status 429. -/
def rateLimitMsg : Message :=
  ⟨"error", "Too many requests. Please wait a minute before trying again."⟩

/-- The `fetch` response: HTTP status and, when present, the body as the
sequence of `reader.read()` results. -/
structure HttpResponse where
  status : Nat
  body : Option (List ReadEvent)
deriving DecidableEq, Repr

/-- `response.ok` per the fetch platform: status in the range 200–299. -/
def HttpResponse.ok (r : HttpResponse) : Bool :=
  decide (200 ≤ r.status) && decide (r.status < 300)

/-- Outcome of the `fetch` call: a network error thrown, or a response. -/
inductive FetchOutcome where
  | fetchError (e : Option String)
  | success (r : HttpResponse)
deriving DecidableEq, Repr

/-- `streamQuery` from api.ts: given the `JSON.parse` oracle, the value
of the module-level `currentSessionId` at call time, the `query`
argument, and the network outcome, it returns the request body passed to
`fetch` and the stream outcome (yielded messages, final
`currentSessionId`, termination). -/
def streamQuery (parse : Parse) (sid0 : Option String) (query : String)
    (net : FetchOutcome) : QueryRequest × StreamOutcome :=
  let req : QueryRequest := ⟨jsTrim query, sid0, some none⟩
  let out :=
    match net with
    | .fetchError e => StreamOutcome.terminated [errMessage e] sid0
    | .success r =>
      if r.ok then
        match r.body with
        | none =>
          StreamOutcome.terminated [errMessage (some "Response body is null")] sid0
        | some events =>
          match runReads parse events [] sid0 with
          | .errored ys e sid => .terminated (ys ++ [errMessage e]) sid
          | .finished ys buf sid =>
            match doneBranch parse buf sid with
            | .terminated ys' sid' => .terminated (ys ++ ys') sid'
            | .diverged ys' sid' => .diverged (ys ++ ys') sid'
      else if r.status = 429 then StreamOutcome.terminated [rateLimitMsg] sid0
      else
        StreamOutcome.terminated
          [errMessage (some "Network response was not ok")] sid0
  (req, out)

/-- Result of running the `while (true)` loop with bounded fuel. -/
inductive LoopRes where
  | ok (yields : List Message) (sid : Option String)
  | threw (yields : List Message) (e : Option String) (sid : Option String)
  | out
deriving DecidableEq, Repr

/-- The `while (true)` loop of `streamQuery`, one unit of fuel per
iteration, transcribed literally: the `done` branch with its
`break` / `yield`-then-`break` / store-and-`continue` cases (note the
`continue` re-enters the loop with the same, still non-empty buffer),
and the chunk branch.  `LoopRes.out` means the fuel ran out before the
loop finished. -/
def loopFuel (parse : Parse) :
    Nat → List ReadEvent → List Char → Option String → LoopRes
  | 0, _, _, _ => .out
  | fuel + 1, [], buf, sid =>
    if buf.isEmpty then .ok [] sid
    else
      match parse buf with
      | some v =>
        match v.sessionId? with
        | some s => loopFuel parse fuel [] buf (some s)
        | none => .ok [v.asMessage] sid
      | none => .ok [] sid
  | fuel + 1, .chunk c :: rest, buf, sid =>
    let r := feedChunk parse sid buf c
    match loopFuel parse fuel rest r.2.1 r.2.2 with
    | .ok ms' s => .ok (r.1 ++ ms') s
    | .threw ms' e s => .threw (r.1 ++ ms') e s
    | .out => .out
  | _ + 1, .readError e :: _, _, sid => .threw [] e sid

/-! ## Chat interface (ChatInterface.tsx) -/

/-- One entry of the `messages` state list of `ChatInterface`. -/
structure ChatMsg where
  text : String
  isAI : Bool
  status : Option String
deriving DecidableEq, Repr

/-- JavaScript truthiness of the `status` field, as used by the
`prev.filter((msg) => !msg.status)` calls and by the renderer: absent or
empty-string `status` is falsy. -/
def hasStatus (m : ChatMsg) : Bool :=
  match m.status with
  | none => false
  | some s => !(s = "")

/-- The body of the `for await` loop of `handleSubmit` for one incoming
stream message: each of the three branches filters out every entry with
a truthy `status` and appends one new entry; a message of any other
`type` leaves the list unchanged. -/
def applyMessage (prev : List ChatMsg) (m : Message) : List ChatMsg :=
  if m.type = "status" then
    prev.filter (fun msg => !hasStatus msg) ++ [⟨"", true, some m.content⟩]
  else if m.type = "content" then
    prev.filter (fun msg => !hasStatus msg) ++ [⟨m.content, true, none⟩]
  else if m.type = "error" then
    prev.filter (fun msg => !hasStatus msg) ++
      [⟨"Error: " ++ m.content, true, none⟩]
  else prev

/-- The guard of `handleSubmit`:
`if (!input.trim() || isLoading) return` — a request is started exactly
when the trimmed input is non-empty and no request is loading. -/
def handleSubmitSends (input : String) (isLoading : Bool) : Bool :=
  !(jsTrim input = "") && !isLoading

/-- The request-concurrency state of `ChatInterface`: the `isLoading`
React state plus a ghost count of `streamQuery` consumptions started by
`handleSubmit` and not yet finished. -/
structure UiState where
  isLoading : Bool
  inFlight : Nat
deriving DecidableEq, Repr

/-- Events of the chat interface event loop.  `submit input` is the
synchronous prefix of `handleSubmit` (guard check, `setIsLoading(true)`,
starting `streamQuery`), which runs atomically in one JavaScript task;
`complete` is the `finally` block of an in-flight request
(`setIsLoading(false)`), which runs after its stream is fully consumed
or fails.  React flushes state updates between events. -/
inductive UiEvent where
  | submit (input : String)
  | complete
deriving DecidableEq, Repr

/-- The transition of `handleSubmit` on one event. -/
def uiStep (s : UiState) : UiEvent → UiState
  | .submit input =>
    if handleSubmitSends input s.isLoading then
      ⟨true, s.inFlight + 1⟩
    else s
  | .complete =>
    match s.inFlight with
    | 0 => s
    | n + 1 => ⟨false, n⟩

/-- The chat interface state after a sequence of events, starting from
the initial render (`isLoading = false`, nothing in flight). -/
def uiRun (evs : List UiEvent) : UiState :=
  evs.foldl uiStep ⟨false, 0⟩

/-! ## Spec-side definitions

These follow the words of the specification (the stream is a sequence of
newline-delimited lines; each line denotes at most one typed message; a
line carrying a `sessionId` is diverted to the session state), to be
compared with the source-derived `streamQuery` model above. -/

/-- The typed messages a complete line of the stream denotes: none if
the line is blank or unparseable or carries a `sessionId`, otherwise the
parsed object as a `Message`. -/
def lineMessages (parse : Parse) (line : List Char) : List Message :=
  if line.any (fun c => !c.isWhitespace) then
    match parse line with
    | some v =>
      match v.sessionId? with
      | some _ => []
      | none => [v.asMessage]
    | none => []
  else []

/-- The typed messages the final (newline-unterminated) buffered line
denotes; the empty buffer is skipped without trimming. -/
def bufferMessages (parse : Parse) (buf : List Char) : List Message :=
  if buf.isEmpty then []
  else
    match parse buf with
    | some v =>
      match v.sessionId? with
      | some _ => []
      | none => [v.asMessage]
    | none => []

/-- The typed messages of a whole response text, in the order its
newline-delimited lines appear. -/
def streamYieldsSpec (parse : Parse) (s : List Char) : List Message :=
  ((splitNl s).dropLast.map (lineMessages parse)).flatten ++
    bufferMessages parse ((splitNl s).getLastD [])

/-- The session id a complete line stores, if any. -/
def sidOfLine (parse : Parse) (line : List Char) : Option String :=
  if line.any (fun c => !c.isWhitespace) then
    (parse line).bind (fun v => v.sessionId?)
  else none

/-- The session id the final buffered line stores, if any. -/
def sidOfBuffer (parse : Parse) (buf : List Char) : Option String :=
  if buf.isEmpty then none else (parse buf).bind (fun v => v.sessionId?)

/-- All session ids a response text carries, in stream order. -/
def storedSids (parse : Parse) (s : List Char) : List String :=
  (splitNl s).dropLast.filterMap (sidOfLine parse) ++
    (sidOfBuffer parse ((splitNl s).getLastD [])).toList

/-- The most recently stored session identifier after processing a
response text, starting from `sid0`. -/
def lastStoredSid (parse : Parse) (sid0 : Option String) (s : List Char) :
    Option String :=
  match (storedSids parse s).getLast? with
  | some s' => some s'
  | none => sid0

/-- A parse oracle under which no line is a JSON object. -/
def parseNone : Parse := fun _ => none

/-- The characters of the JSON text `\x7b"sessionId":"abc"\x7d`. -/
def sidChunk : List Char := "\x7b\"sessionId\":\"abc\"\x7d".data

/-- A parse oracle mapping exactly the line `sidChunk` to a JSON object
whose `sessionId` key holds `"abc"`, and everything else to `none`. -/
def parseSid : Parse := fun l =>
  if l = sidChunk then some ⟨some "abc", ⟨"", ""⟩⟩ else none

/-- Whether a `reader.read()` result is a thrown error. -/
def isReadError : ReadEvent → Bool
  | .chunk _ => false
  | .readError _ => true

/-- The failure inputs of `streamQuery`: the `fetch` call throws, the
response is not ok, the response body is null, or some `read()` call
throws. -/
def failingInput : FetchOutcome → Bool
  | .fetchError _ => true
  | .success r => !r.ok || r.body.isNone || (r.body.getD []).any isReadError

/-- Invariant of the chat interface state: at most one request in
flight, and none when `isLoading` is false. -/
def uiInv (s : UiState) : Prop :=
  s.inFlight ≤ 1 ∧ (s.isLoading = false → s.inFlight = 0)

/-- At most one entry of the message list has a truthy `status`, and
every entry other than the last has none. -/
def statusInv (l : List ChatMsg) : Prop :=
  (l.dropLast.all fun m => !hasStatus m) = true ∧
  (l.filter hasStatus).length ≤ 1

/-! ## Lemmas about `splitNl` -/

theorem dropLast_append' {α : Type} (A : List α) {B : List α} (h : B ≠ []) :
    (A ++ B).dropLast = A ++ B.dropLast :=
  List.dropLast_append_of_ne_nil A h

theorem getLastD_append' {α : Type} (A : List α) {B : List α} (h : B ≠ [])
    (d : α) : (A ++ B).getLastD d = B.getLastD d := by
  rw [List.getLastD_eq_getLast?, List.getLastD_eq_getLast?,
    List.getLast?_append_of_ne_nil _ h]

theorem dropLast_cons' {α : Type} (a : α) {l : List α} (h : l ≠ []) :
    (a :: l).dropLast = a :: l.dropLast := by
  simpa using dropLast_append' [a] h

theorem getLastD_cons' {α : Type} (a d : α) {l : List α} (h : l ≠ []) :
    (a :: l).getLastD d = l.getLastD d := by
  simpa using getLastD_append' [a] h d

theorem getLastD_mem {α : Type} {l : List α} (h : l ≠ []) (d : α) :
    l.getLastD d ∈ l := by
  cases l with
  | nil => exact absurd rfl h
  | cons a as =>
    rw [List.getLastD_eq_getLast?, List.getLast?_eq_getLast _ (by simp),
      Option.getD_some]
    exact List.getLast_mem _

theorem splitNl_ne_nil (s : List Char) : splitNl s ≠ [] := by
  cases s with
  | nil => simp [splitNl]
  | cons c cs =>
    simp only [splitNl]
    split
    · simp
    · split <;> simp

theorem glueHead_ne_nil (x : List Char) (L : List (List Char)) :
    glueHead x L ≠ [] := by
  cases L <;> simp [glueHead]

theorem glueHead_nil {L : List (List Char)} (h : L ≠ []) :
    glueHead [] L = L := by
  cases L with
  | nil => exact absurd rfl h
  | cons l ls => simp [glueHead]

theorem glueHead_glueHead (x y : List Char) (L : List (List Char)) :
    glueHead x (glueHead y L) = glueHead (x ++ y) L := by
  cases L <;> simp [glueHead]

theorem splitNl_cons_nl (cs : List Char) :
    splitNl ('\n' :: cs) = [] :: splitNl cs := by
  simp [splitNl]

theorem splitNl_cons_of_ne {c : Char} (cs : List Char) (hc : ¬c = '\n') :
    splitNl (c :: cs) = glueHead [c] (splitNl cs) := by
  cases hsp : splitNl cs with
  | nil => exact absurd hsp (splitNl_ne_nil cs)
  | cons l ls => simp [splitNl, if_neg hc, hsp, glueHead]

theorem not_nl_mem_splitNl :
    ∀ (s : List Char), ∀ l ∈ splitNl s, '\n' ∉ l := by
  intro s
  induction s with
  | nil =>
    intro l hl
    simp [splitNl] at hl
    simp [hl]
  | cons c cs ih =>
    intro l hl
    by_cases hc : c = '\n'
    · subst hc
      rw [splitNl_cons_nl] at hl
      rcases List.mem_cons.1 hl with h | h
      · simp [h]
      · exact ih l h
    · rw [splitNl_cons_of_ne cs hc] at hl
      cases hsp : splitNl cs with
      | nil => exact absurd hsp (splitNl_ne_nil cs)
      | cons l0 ls =>
        rw [hsp] at hl
        simp only [glueHead] at hl
        rcases List.mem_cons.1 hl with h | h
        · subst h
          intro hmem
          rcases List.mem_append.1 hmem with h' | h'
          · simp at h'
            exact hc h'.symm
          · exact ih l0 (by rw [hsp]; exact List.mem_cons_self _ _) h'
        · exact ih l (by rw [hsp]; exact List.mem_cons_of_mem _ h)

theorem splitNl_of_not_nl {s : List Char} (h : '\n' ∉ s) : splitNl s = [s] := by
  induction s with
  | nil => rfl
  | cons c cs ih =>
    have hc : ¬c = '\n' := by
      intro e
      exact h (by simp [e])
    have hcs : splitNl cs = [cs] := ih (fun hm => h (List.mem_cons_of_mem _ hm))
    rw [splitNl_cons_of_ne cs hc, hcs]
    simp [glueHead]

theorem splitNl_append (a b : List Char) :
    splitNl (a ++ b) =
      (splitNl a).dropLast ++
        glueHead ((splitNl a).getLastD []) (splitNl b) := by
  induction a with
  | nil =>
    simp [splitNl, glueHead_nil (splitNl_ne_nil b)]
  | cons c a' ih =>
    by_cases hc : c = '\n'
    · subst hc
      rw [List.cons_append, splitNl_cons_nl, ih, splitNl_cons_nl,
        dropLast_cons' _ (splitNl_ne_nil a'),
        getLastD_cons' _ _ (splitNl_ne_nil a'), List.cons_append]
    · rw [List.cons_append, splitNl_cons_of_ne _ hc, ih,
        splitNl_cons_of_ne _ hc]
      cases hsp : splitNl a' with
      | nil => exact absurd hsp (splitNl_ne_nil a')
      | cons l0 ls =>
        cases ls with
        | nil =>
          have h1 : ([l0] : List (List Char)).dropLast = [] := rfl
          have h2 : ([l0] : List (List Char)).getLastD [] = l0 := rfl
          have h3 : glueHead [c] [l0] = [[c] ++ l0] := rfl
          have h4 : ([[c] ++ l0] : List (List Char)).dropLast = [] := rfl
          have h5 : ([[c] ++ l0] : List (List Char)).getLastD [] = [c] ++ l0 :=
            rfl
          rw [h1, h2, List.nil_append, glueHead_glueHead, h3, h4, h5,
            List.nil_append]
        | cons l1 ls' =>
          have hne : (l1 :: ls' : List (List Char)) ≠ [] := by simp
          have hg : glueHead [c] (l0 :: l1 :: ls') = ([c] ++ l0) :: l1 :: ls' :=
            rfl
          rw [dropLast_cons' _ hne, getLastD_cons' _ _ hne, hg,
            dropLast_cons' _ hne, getLastD_cons' _ _ hne]
          simp [glueHead]

/-! ## Lemmas about line handling and chunk feeding -/

theorem handleLine_fst (parse : Parse) (sid : Option String) (l : List Char) :
    (handleLine parse sid l).1 = lineMessages parse l := by
  unfold handleLine lineMessages
  split
  · rcases parse l with _ | ⟨_ | s, m⟩ <;> rfl
  · rfl

theorem handleLine_snd (parse : Parse) (sid : Option String) (l : List Char) :
    (handleLine parse sid l).2 =
      match sidOfLine parse l with
      | some s => some s
      | none => sid := by
  unfold handleLine sidOfLine
  split
  · rcases parse l with _ | ⟨_ | s, m⟩ <;> rfl
  · rfl

theorem handleLines_append (parse : Parse) (sid : Option String)
    (L₁ L₂ : List (List Char)) :
    handleLines parse sid (L₁ ++ L₂) =
      ((handleLines parse sid L₁).1 ++
         (handleLines parse (handleLines parse sid L₁).2 L₂).1,
       (handleLines parse (handleLines parse sid L₁).2 L₂).2) := by
  induction L₁ generalizing sid with
  | nil => simp [handleLines]
  | cons l ls ih => simp [handleLines, ih]

theorem handleLines_fst (parse : Parse) (sid : Option String)
    (L : List (List Char)) :
    (handleLines parse sid L).1 = (L.map (lineMessages parse)).flatten := by
  induction L generalizing sid with
  | nil => rfl
  | cons l ls ih => simp [handleLines, handleLine_fst, ih]

theorem handleLines_snd (parse : Parse) (sid : Option String)
    (L : List (List Char)) :
    (handleLines parse sid L).2 =
      match (L.filterMap (sidOfLine parse)).getLast? with
      | some s => some s
      | none => sid := by
  induction L generalizing sid with
  | nil => rfl
  | cons l ls ih =>
    simp only [handleLines, ih, handleLine_snd]
    cases h : sidOfLine parse l with
    | none => simp [List.filterMap_cons, h]
    | some s =>
      cases hls : ls.filterMap (sidOfLine parse) with
      | nil => simp [List.filterMap_cons, h, hls]
      | cons x xs =>
        obtain ⟨g, hg⟩ : ∃ g, (x :: xs).getLast? = some g :=
          Option.isSome_iff_exists.1 (List.getLast?_isSome.2 (by simp))
        simp [List.filterMap_cons, h, hls, List.getLast?_cons_cons, hg]

theorem feedChunk_append (parse : Parse) (sid : Option String)
    (buf c₁ c₂ : List Char) :
    feedChunk parse sid buf (c₁ ++ c₂) =
      ((feedChunk parse sid buf c₁).1 ++
         (feedChunk parse (feedChunk parse sid buf c₁).2.2
            (feedChunk parse sid buf c₁).2.1 c₂).1,
       (feedChunk parse (feedChunk parse sid buf c₁).2.2
          (feedChunk parse sid buf c₁).2.1 c₂).2) := by
  have hb' : '\n' ∉ (splitNl (buf ++ c₁)).getLastD [] :=
    not_nl_mem_splitNl _ _ (getLastD_mem (splitNl_ne_nil _) _)
  have h2 : splitNl ((splitNl (buf ++ c₁)).getLastD [] ++ c₂) =
      glueHead ((splitNl (buf ++ c₁)).getLastD []) (splitNl c₂) := by
    rw [splitNl_append, splitNl_of_not_nl hb']
    simp [glueHead_nil (splitNl_ne_nil c₂)]
  unfold feedChunk
  rw [← List.append_assoc buf c₁ c₂, splitNl_append (buf ++ c₁) c₂, h2,
    dropLast_append' _ (glueHead_ne_nil _ _),
    getLastD_append' _ (glueHead_ne_nil _ _), handleLines_append]

theorem runReads_chunks (parse : Parse) (cs : List (List Char))
    (buf : List Char) (sid : Option String) (hb : '\n' ∉ buf) :
    runReads parse (cs.map ReadEvent.chunk) buf sid =
      .finished (feedChunk parse sid buf cs.flatten).1
        (feedChunk parse sid buf cs.flatten).2.1
        (feedChunk parse sid buf cs.flatten).2.2 := by
  induction cs generalizing buf sid with
  | nil =>
    simp only [List.map_nil, runReads, List.flatten_nil]
    unfold feedChunk
    rw [List.append_nil, splitNl_of_not_nl hb]
    rfl
  | cons c cs' ih =>
    simp only [List.map_cons, runReads, List.flatten_cons]
    have hb' : '\n' ∉ (feedChunk parse sid buf c).2.1 := by
      unfold feedChunk
      exact not_nl_mem_splitNl _ _ (getLastD_mem (splitNl_ne_nil _) _)
    rw [ih _ _ hb', feedChunk_append]

/-! ## The fuelled loop agrees with the factored model -/

/-- Once the reader is exhausted, a buffer that parses to a `sessionId`
object makes the `done` branch store the id and `continue` forever: no
amount of fuel finishes the loop. -/
theorem loopFuel_hang (parse : Parse) {buf : List Char} {v : JsonValue}
    {s : String} (hbuf : buf.isEmpty = false) (hp : parse buf = some v)
    (hs : v.sessionId? = some s) :
    ∀ (fuel : Nat) (sid : Option String),
      loopFuel parse fuel [] buf sid = .out := by
  intro fuel
  induction fuel with
  | zero => intro sid; rfl
  | succ n ih =>
    intro sid
    simp only [loopFuel, hbuf, hp, hs, Bool.false_eq_true, if_false]
    exact ih _

/-- The literal fuelled `while (true)` loop agrees with the factored
`runReads` + `doneBranch` model: with enough fuel it returns exactly the
factored result, and in the diverging `doneBranch` case it returns
`out` no matter the fuel. -/
theorem loopFuel_adequate (parse : Parse) :
    ∀ (events : List ReadEvent) (buf : List Char) (sid : Option String)
      (fuel : Nat), events.length < fuel →
      loopFuel parse fuel events buf sid =
        match runReads parse events buf sid with
        | .errored ys e s => .threw ys e s
        | .finished ys b s =>
          match doneBranch parse b s with
          | .terminated ys' s' => .ok (ys ++ ys') s'
          | .diverged _ _ => .out := by
  intro events
  induction events with
  | nil =>
    intro buf sid fuel hf
    match fuel, hf with
    | n + 1, _ =>
      simp only [runReads, doneBranch, loopFuel]
      by_cases hb : buf.isEmpty
      · simp [hb]
      · rcases hp : parse buf with _ | ⟨_ | s, m⟩ <;>
          simp [hb, hp]
        exact loopFuel_hang parse (by simpa using hb) hp rfl n _
  | cons ev rest ih =>
    intro buf sid fuel hf
    match fuel, hf with
    | n + 1, hf =>
      cases ev with
      | chunk c =>
        have hn : rest.length < n := by
          simpa using Nat.lt_of_succ_lt_succ hf
        simp only [loopFuel, runReads]
        rw [ih _ _ n hn]
        cases hr : runReads parse rest (feedChunk parse sid buf c).2.1
            (feedChunk parse sid buf c).2.2 with
        | errored ys e s => simp
        | finished ys b s =>
          cases hdb : doneBranch parse b s <;> simp [hdb]
      | readError e => rfl

/-- The messages the `done` branch yields. -/
theorem doneBranch_yields (parse : Parse) (buf : List Char)
    (sid : Option String) :
    (doneBranch parse buf sid).yields = bufferMessages parse buf := by
  unfold doneBranch bufferMessages
  by_cases hb : buf.isEmpty
  · simp [hb, StreamOutcome.yields]
  · simp only [hb, Bool.false_eq_true, if_false]
    rcases parse buf with _ | ⟨_ | s, m⟩ <;> rfl

/-- The session id after the `done` branch. -/
theorem doneBranch_sid (parse : Parse) (buf : List Char)
    (sid : Option String) :
    (doneBranch parse buf sid).sid =
      match sidOfBuffer parse buf with
      | some s => some s
      | none => sid := by
  unfold doneBranch sidOfBuffer
  by_cases hb : buf.isEmpty
  · simp [hb, StreamOutcome.sid]
  · simp only [hb, Bool.false_eq_true, if_false]
    rcases parse buf with _ | ⟨_ | s, m⟩ <;> rfl

/-! ## Reduction of `streamQuery` on an ok response -/

theorem streamQuery_ok_events (parse : Parse) (sid0 : Option String)
    (q : String) (events : List ReadEvent) :
    streamQuery parse sid0 q (.success ⟨200, some events⟩) =
      (⟨jsTrim q, sid0, some none⟩,
        match runReads parse events [] sid0 with
        | .errored ys e sid => .terminated (ys ++ [errMessage e]) sid
        | .finished ys buf sid =>
          match doneBranch parse buf sid with
          | .terminated ys' sid' => .terminated (ys ++ ys') sid'
          | .diverged ys' sid' => .diverged (ys ++ ys') sid') := by
  simp [streamQuery, HttpResponse.ok]

theorem feedChunk_nil_fst (parse : Parse) (sid0 : Option String)
    (s : List Char) :
    (feedChunk parse sid0 [] s).1 =
      ((splitNl s).dropLast.map (lineMessages parse)).flatten := by
  unfold feedChunk
  rw [List.nil_append, handleLines_fst]

theorem feedChunk_nil_buf (parse : Parse) (sid0 : Option String)
    (s : List Char) :
    (feedChunk parse sid0 [] s).2.1 = (splitNl s).getLastD [] := by
  unfold feedChunk
  rw [List.nil_append]

theorem feedChunk_nil_snd (parse : Parse) (sid0 : Option String)
    (s : List Char) :
    (feedChunk parse sid0 [] s).2.2 =
      match ((splitNl s).dropLast.filterMap (sidOfLine parse)).getLast? with
      | some x => some x
      | none => sid0 := by
  unfold feedChunk
  rw [List.nil_append, handleLines_snd]

theorem matchDone_yields (parse : Parse) (F1 : List Message) (b : List Char)
    (s : Option String) :
    (match doneBranch parse b s with
      | .terminated ys' sid' => StreamOutcome.terminated (F1 ++ ys') sid'
      | .diverged ys' sid' => StreamOutcome.diverged (F1 ++ ys') sid').yields
    = F1 ++ bufferMessages parse b := by
  rw [← doneBranch_yields parse b s]
  cases doneBranch parse b s <;> rfl

theorem matchDone_sid (parse : Parse) (F1 : List Message) (b : List Char)
    (s : Option String) :
    (match doneBranch parse b s with
      | .terminated ys' sid' => StreamOutcome.terminated (F1 ++ ys') sid'
      | .diverged ys' sid' => StreamOutcome.diverged (F1 ++ ys') sid').sid
    = (doneBranch parse b s).sid := by
  cases doneBranch parse b s <;> rfl

theorem lastStoredSid_eq (parse : Parse) (sid0 : Option String)
    (s : List Char) :
    lastStoredSid parse sid0 s =
      match sidOfBuffer parse ((splitNl s).getLastD []) with
      | some x => some x
      | none =>
        match ((splitNl s).dropLast.filterMap (sidOfLine parse)).getLast? with
        | some x => some x
        | none => sid0 := by
  unfold lastStoredSid storedSids
  cases hob : sidOfBuffer parse ((splitNl s).getLastD []) with
  | some x => simp [List.getLast?_concat]
  | none => simp

/-- The yields and final session id of a `streamQuery` run over an ok
response delivered as any list of chunks. -/
theorem streamQuery_chunks_run (parse : Parse) (sid0 : Option String)
    (q : String) (cs : List (List Char)) :
    (streamQuery parse sid0 q
        (.success ⟨200, some (cs.map .chunk)⟩)).2.yields
      = streamYieldsSpec parse cs.flatten ∧
    (streamQuery parse sid0 q
        (.success ⟨200, some (cs.map .chunk)⟩)).2.sid
      = lastStoredSid parse sid0 cs.flatten := by
  rw [streamQuery_ok_events, runReads_chunks parse cs [] sid0 (by simp)]
  constructor
  · show (match doneBranch parse (feedChunk parse sid0 [] cs.flatten).2.1
        (feedChunk parse sid0 [] cs.flatten).2.2 with
      | .terminated ys' sid' =>
        StreamOutcome.terminated ((feedChunk parse sid0 [] cs.flatten).1 ++ ys')
          sid'
      | .diverged ys' sid' =>
        StreamOutcome.diverged ((feedChunk parse sid0 [] cs.flatten).1 ++ ys')
          sid').yields = _
    rw [matchDone_yields, feedChunk_nil_fst, feedChunk_nil_buf,
      streamYieldsSpec]
  · show (match doneBranch parse (feedChunk parse sid0 [] cs.flatten).2.1
        (feedChunk parse sid0 [] cs.flatten).2.2 with
      | .terminated ys' sid' =>
        StreamOutcome.terminated ((feedChunk parse sid0 [] cs.flatten).1 ++ ys')
          sid'
      | .diverged ys' sid' =>
        StreamOutcome.diverged ((feedChunk parse sid0 [] cs.flatten).1 ++ ys')
          sid').sid = _
    rw [matchDone_sid, doneBranch_sid, feedChunk_nil_buf, feedChunk_nil_snd,
      lastStoredSid_eq]

/-! ## Supporting lemmas for the claims -/

theorem runReads_readError (parse : Parse) (events : List ReadEvent)
    (buf : List Char) (sid : Option String)
    (h : events.any isReadError = true) :
    ∃ ys e s, runReads parse events buf sid = .errored ys e s := by
  induction events generalizing buf sid with
  | nil => simp at h
  | cons ev rest ih =>
    cases ev with
    | chunk c =>
      have hr : rest.any isReadError = true := by
        simpa [isReadError] using h
      obtain ⟨ys, e, s, hrr⟩ :=
        ih (feedChunk parse sid buf c).2.1 (feedChunk parse sid buf c).2.2 hr
      exact ⟨(feedChunk parse sid buf c).1 ++ ys, e, s, by
        simp only [runReads, hrr]⟩
    | readError e => exact ⟨[], e, sid, rfl⟩

theorem uiStep_inv {s : UiState} (hs : uiInv s) (ev : UiEvent) :
    uiInv (uiStep s ev) := by
  cases ev with
  | submit input =>
    by_cases hsend : handleSubmitSends input s.isLoading = true
    · have hload : s.isLoading = false := by
        have h2 := hsend
        simp [handleSubmitSends] at h2
        exact h2.2
      have h0 : s.inFlight = 0 := hs.2 hload
      simp [uiStep, hsend, uiInv, h0]
    · simpa [uiStep, hsend] using hs
  | complete =>
    rcases hn : s.inFlight with _ | n
    · simp only [uiStep, hn]
      exact hs
    · have h0 : n = 0 := by
        have := hs.1
        omega
      subst h0
      simp [uiStep, hn, uiInv]

theorem statusInv_filter_append (prev : List ChatMsg) (x : ChatMsg) :
    statusInv (prev.filter (fun m => !hasStatus m) ++ [x]) := by
  constructor
  · rw [List.dropLast_concat]
    simp only [List.all_eq_true]
    intro m hm
    simpa using (List.mem_filter.1 hm).2
  · rw [List.filter_append, List.filter_filter]
    simp only [Bool.and_not_self, List.filter_false, List.nil_append]
    cases hx : hasStatus x <;> simp [List.filter, hx]

/-! ## Claim theorems -/

/-- C1: for every finite response text and every way of partitioning it
into chunks, `streamQuery` produces exactly the same run (request,
yielded messages, final session id, termination) as when the whole text
arrives in a single chunk, and the yielded messages are exactly the
typed messages of the newline-delimited lines of the text, in the order
those lines appear. -/
theorem streamQuery_chunking_invariant (parse : Parse) (sid0 : Option String)
    (q : String) (css : List (List Char)) :
    streamQuery parse sid0 q (.success ⟨200, some (css.map .chunk)⟩) =
      streamQuery parse sid0 q
        (.success ⟨200, some [.chunk css.flatten]⟩) ∧
    (streamQuery parse sid0 q
        (.success ⟨200, some (css.map .chunk)⟩)).2.yields
      = streamYieldsSpec parse css.flatten := by
  refine ⟨?_, (streamQuery_chunks_run parse sid0 q css).1⟩
  have h1 := runReads_chunks parse css [] sid0 (by simp)
  have h2 : runReads parse [ReadEvent.chunk css.flatten] [] sid0 =
      .finished (feedChunk parse sid0 [] css.flatten).1
        (feedChunk parse sid0 [] css.flatten).2.1
        (feedChunk parse sid0 [] css.flatten).2.2 := by
    simpa using runReads_chunks parse [css.flatten] [] sid0 (by simp)
  rw [streamQuery_ok_events, streamQuery_ok_events, h1, h2]

/-- C2: a parsed line (or final buffered line) carrying a `sessionId`
field yields nothing to the consumer; the identifier is stored in the
module-level `currentSessionId` instead, so the final stored id is the
most recently received one (the initial `sid0` — `null` before any id
was ever received — when the stream carries none), and every request
body carries exactly the stored id current at call time. -/
theorem streamQuery_sessionId_captured (parse : Parse) (sid0 : Option String)
    (q : String) (css : List (List Char)) (line : List Char) (v : JsonValue)
    (s' : String) (hv : parse line = some v) (hs : v.sessionId? = some s') :
    lineMessages parse line = [] ∧
    bufferMessages parse line = [] ∧
    (streamQuery parse sid0 q
        (.success ⟨200, some (css.map .chunk)⟩)).1.sessionId = sid0 ∧
    (streamQuery parse sid0 q
        (.success ⟨200, some (css.map .chunk)⟩)).2.sid
      = lastStoredSid parse sid0 css.flatten ∧
    ∀ (q₂ : String) (net₂ : FetchOutcome),
      (streamQuery parse
          (streamQuery parse sid0 q
            (.success ⟨200, some (css.map .chunk)⟩)).2.sid
          q₂ net₂).1.sessionId
        = (streamQuery parse sid0 q
            (.success ⟨200, some (css.map .chunk)⟩)).2.sid := by
  refine ⟨?_, ?_, rfl, (streamQuery_chunks_run parse sid0 q css).2,
    fun q₂ net₂ => rfl⟩
  · unfold lineMessages
    split
    · simp [hv, hs]
    · rfl
  · unfold bufferMessages
    split
    · rfl
    · simp [hv, hs]

/-- Witness for C2 at a concrete oracle and input. -/
theorem streamQuery_sessionId_captured_witness :
    parseSid sidChunk = some ⟨some "abc", ⟨"", ""⟩⟩ ∧
    (⟨some "abc", ⟨"", ""⟩⟩ : JsonValue).sessionId? = some "abc" ∧
    lineMessages parseSid sidChunk = [] ∧
    bufferMessages parseSid sidChunk = [] ∧
    (streamQuery parseSid none "q"
        (.success ⟨200, some (([] : List (List Char)).map .chunk)⟩)).2.sid
      = lastStoredSid parseSid none ([] : List (List Char)).flatten := by
  have h := streamQuery_sessionId_captured parseSid none "q" [] sidChunk
    ⟨some "abc", ⟨"", ""⟩⟩ "abc" (by decide) rfl
  exact ⟨by decide, rfl, h.1, h.2.1, h.2.2.2.1⟩

/-- C3: on an HTTP 429 response, `streamQuery` yields exactly one
message, of type `error`, telling the user to wait a minute, then
completes normally — for every response body, which it never reads. -/
theorem streamQuery_429 (parse : Parse) (sid0 : Option String) (q : String)
    (body : Option (List ReadEvent)) :
    streamQuery parse sid0 q (.success ⟨429, body⟩) =
      (⟨jsTrim q, sid0, some none⟩,
        .terminated [rateLimitMsg] sid0) ∧
    rateLimitMsg =
      ⟨"error",
        "Too many requests. Please wait a minute before trying again."⟩ :=
  ⟨rfl, rfl⟩

/-- C7 counterexample: the claim that every request's `max_results`
field is absent or a positive integer fails — the client always sends
the field present with value `null`. -/
theorem maxResults_claim_false :
    ¬ ((streamQuery parseNone none "q" (.fetchError none)).1.max_results
        = none ∨
      ∃ n : Int,
        (streamQuery parseNone none "q" (.fetchError none)).1.max_results
          = some (some n) ∧ 0 < n) := by
  have hmr : (streamQuery parseNone none "q"
      (.fetchError none)).1.max_results = some none := rfl
  rw [hmr]
  rintro (h | ⟨n, hn, _⟩)
  · exact Option.noConfusion h
  · exact Option.noConfusion (Option.some.inj hn)

/-- C7 amended: in every request the client sends, the `max_results`
field is present with value `null` — never absent and never a number,
so in particular never a positive integer. -/
theorem maxResults_always_null (parse : Parse) (sid0 : Option String)
    (q : String) (net : FetchOutcome) :
    (streamQuery parse sid0 q net).1.max_results = some none := rfl

/-- C4: on every failure input — the `fetch` call throws, the response
is not ok, the response body is null, or a `read()` call throws — the
generator completes normally and its last yielded message has type
`error`. -/
theorem streamQuery_failure_last_error (parse : Parse) (sid0 : Option String)
    (q : String) (net : FetchOutcome) (h : failingInput net = true) :
    ∃ ys sid', (streamQuery parse sid0 q net).2 = .terminated ys sid' ∧
      ys.getLast?.map Message.type = some "error" := by
  cases net with
  | fetchError e => exact ⟨[errMessage e], sid0, rfl, rfl⟩
  | success r =>
    rcases r with ⟨status, body⟩
    by_cases hok : HttpResponse.ok ⟨status, body⟩ = true
    · cases body with
      | none =>
        exact ⟨[errMessage (some "Response body is null")], sid0,
          by simp [streamQuery, hok], rfl⟩
      | some events =>
        have hev : events.any isReadError = true := by
          simpa [failingInput, hok] using h
        obtain ⟨ys, e, s, hr⟩ := runReads_readError parse events [] sid0 hev
        refine ⟨ys ++ [errMessage e], s, by simp [streamQuery, hok, hr], ?_⟩
        rw [List.getLast?_concat]
        rfl
    · by_cases h429 : status = 429
      · subst h429
        exact ⟨[rateLimitMsg], sid0, by simp [streamQuery, hok], rfl⟩
      · exact ⟨[errMessage (some "Network response was not ok")], sid0,
          by simp [streamQuery, hok, h429], rfl⟩

/-- Witness for C4 at a concrete failure input. -/
theorem streamQuery_failure_last_error_witness :
    failingInput (.fetchError none) = true ∧
    ∃ ys sid',
      (streamQuery parseNone none "hi" (.fetchError none)).2
        = .terminated ys sid' ∧
      ys.getLast?.map Message.type = some "error" :=
  ⟨rfl, streamQuery_failure_last_error parseNone none "hi"
    (.fetchError none) rfl⟩

/-- C5: whenever the `handleSubmit` guard lets a request start, the
query field the client sends is the trimmed input, and it is never the
empty string (the guard refuses empty or whitespace-only input). -/
theorem handleSubmit_no_empty_query (input : String) (loading : Bool)
    (parse : Parse) (sid0 : Option String) (net : FetchOutcome)
    (h : handleSubmitSends input loading = true) :
    (streamQuery parse sid0 input net).1.query = jsTrim input ∧
    (streamQuery parse sid0 input net).1.query ≠ "" := by
  refine ⟨rfl, ?_⟩
  show jsTrim input ≠ ""
  have h2 := h
  simp [handleSubmitSends] at h2
  exact h2.1

/-- Witness for C5 at a concrete input. -/
theorem handleSubmit_no_empty_query_witness :
    handleSubmitSends " hi " false = true ∧
    (streamQuery parseNone none " hi " (.fetchError none)).1.query
      = jsTrim " hi " ∧
    (streamQuery parseNone none " hi " (.fetchError none)).1.query ≠ "" :=
  ⟨by decide, handleSubmit_no_empty_query " hi " false parseNone none
    (.fetchError none) (by decide)⟩

/-- C6: over every sequence of chat interface events (submits and
request completions), at most one request started by `handleSubmit` is
ever in flight, and none is when `isLoading` is false. -/
theorem chat_at_most_one_request (evs : List UiEvent) :
    (uiRun evs).inFlight ≤ 1 := by
  have main : ∀ (s : UiState), uiInv s → uiInv (evs.foldl uiStep s) := by
    induction evs with
    | nil => intro s hs; exact hs
    | cons e es ih => intro s hs; exact ih _ (uiStep_inv hs e)
  exact (main ⟨false, 0⟩ ⟨by simp, fun _ => rfl⟩).1

/-- C8 (code bug): a response whose final, newline-unterminated line
parses to an object with a `sessionId` field makes `streamQuery`
diverge: the run result is `diverged`, and the literal fuelled
`while (true)` loop never finishes no matter the fuel, because the
`continue` in the `done` branch re-enters the loop with the same
non-empty buffer. -/
theorem streamQuery_sessionId_tail_diverges :
    (streamQuery parseSid none "q"
        (.success ⟨200, some [.chunk sidChunk]⟩)).2
      = .diverged [] (some "abc") ∧
    ∀ fuel : Nat, loopFuel parseSid fuel [.chunk sidChunk] [] none = .out := by
  constructor
  · decide
  · intro fuel
    cases fuel with
    | zero => rfl
    | succ n =>
      have hr1 : (feedChunk parseSid none [] sidChunk).2.1 = sidChunk := by
        decide
      have hr2 : (feedChunk parseSid none [] sidChunk).2.2 = none := by
        decide
      have hp : parseSid sidChunk = some ⟨some "abc", ⟨"", ""⟩⟩ := by decide
      have h1 : loopFuel parseSid n [] sidChunk none = .out :=
        loopFuel_hang parseSid (by decide) hp rfl n none
      simp only [loopFuel, hr1, hr2, h1]

/-- C9: a line that is non-empty but does not parse as JSON yields no
message at all (neither typed nor `error`), leaves the stored session id
unchanged, and the remaining lines are processed as if it were not
there. -/
theorem invalid_line_skipped (parse : Parse) (sid : Option String)
    (line : List Char) (ls : List (List Char)) (_hne : line ≠ [])
    (hp : parse line = none) :
    handleLine parse sid line = ([], sid) ∧
    handleLines parse sid (line :: ls) = handleLines parse sid ls := by
  have h1 : handleLine parse sid line = ([], sid) := by
    unfold handleLine
    split
    · rw [hp]
    · rfl
  exact ⟨h1, by simp [handleLines, h1]⟩

/-- Witness for C9 at a concrete unparseable line. -/
theorem invalid_line_skipped_witness :
    (['x'] : List Char) ≠ [] ∧ parseNone ['x'] = none ∧
    handleLine parseNone none ['x'] = ([], none) ∧
    handleLines parseNone none [['x']] = handleLines parseNone none [] :=
  ⟨by decide, rfl,
    (invalid_line_skipped parseNone none ['x'] [] (by decide) rfl).1,
    (invalid_line_skipped parseNone none ['x'] [] (by decide) rfl).2⟩

/-- C10: after the chat interface processes an incoming `status`,
`content` or `error` message, every entry of the message list other
than the most recently appended one has no truthy status, and at most
one entry in total has one. -/
theorem chat_single_status (prev : List ChatMsg) (c : String) :
    statusInv (applyMessage prev ⟨"status", c⟩) ∧
    statusInv (applyMessage prev ⟨"content", c⟩) ∧
    statusInv (applyMessage prev ⟨"error", c⟩) :=
  ⟨statusInv_filter_append prev _, statusInv_filter_append prev _,
    statusInv_filter_append prev _⟩

end Repello
